import Mathlib

/-!
# Verification of the SCALE codec core (Text, Metadata envelope, Extrinsic, decorators)

Shallow embedding of the repository's TypeScript sources. Byte buffers
(`Uint8Array`) are modelled as `List Nat` of byte values; JavaScript strings are
modelled by their UTF-8 byte sequences (so `stringToU8a` / `u8aToString` from
`@polkadot/util` become the identity on byte lists). Fallible operations
(`assert` throwing) are modelled with `Option` / `Except`.
-/

/-! ## Compact codec (`@polkadot/util`)

Modelled from the spec: `compactToU8a` / `compactFromU8a` / `compactAddLength`
live in the external `@polkadot/util` package (not under `src/`); the wire
format is fixed by spec §6: the first byte's low 2 bits select the mode
(single-byte 6-bit value, two-byte 14-bit little-endian, four-byte 30-bit
little-endian, big-integer with byte count in the top 6 bits of the first
byte), and a length-prefixed payload is the compact length followed by the raw
bytes. Reads past the end of the buffer are clamped by `subarray`, mirroring
the JavaScript implementation. -/

/-- Little-endian interpretation of a byte list as an unsigned integer. -/
def u8aToNat : List Nat → Nat
  | [] => 0
  | b :: rest => b + 256 * u8aToNat rest

/-- `k` little-endian bytes of `n`. -/
def natToBytesLE : Nat → Nat → List Nat
  | 0, _ => []
  | k + 1, n => (n % 256) :: natToBytesLE k (n / 256)

/-- Number of bytes required to represent `n` (0 for 0). -/
def byteLen (n : Nat) : Nat :=
  if n = 0 then 0 else byteLen (n / 256) + 1
termination_by n
decreasing_by
  exact Nat.div_lt_self (Nat.pos_of_ne_zero (by assumption)) (by norm_num)

/-- Modelled from the spec: SCALE compact encoding of an unsigned integer
(spec §6 wire format). -/
def compactToU8a (n : Nat) : List Nat :=
  if n < 2 ^ 6 then [n * 4]
  else if n < 2 ^ 14 then natToBytesLE 2 (n * 4 + 1)
  else if n < 2 ^ 30 then natToBytesLE 4 (n * 4 + 2)
  else
    let nBytes := byteLen n
    (4 * (nBytes - 4) + 3) :: natToBytesLE nBytes n

/-- Modelled from the spec: SCALE compact decoding, returning
`(bytesConsumed, value)` like `compactFromU8a`'s `[offset, length]` pair.
Out-of-range reads are clamped exactly as `Uint8Array.subarray` clamps. -/
def compactFromU8a (value : List Nat) : Nat × Nat :=
  let first := value.headD 0
  let flag := first % 4
  if flag = 0 then (1, first / 4)
  else if flag = 1 then (2, u8aToNat (value.take 2) / 4)
  else if flag = 2 then (4, u8aToNat (value.take 4) / 4)
  else
    let nBytes := first / 4 + 4
    (1 + nBytes, u8aToNat ((value.drop 1).take nBytes))

/-- Modelled from the spec: prefix a byte sequence with its compact-encoded
length (`compactAddLength`). -/
def compactAddLength (bytes : List Nat) : List Nat :=
  compactToU8a bytes.length ++ bytes

/-- `stringToU8a` under the byte-list model of strings: the identity. -/
def stringToU8a (s : List Nat) : List Nat := s

/-- `u8aToString` under the byte-list model of strings: the identity. -/
def u8aToString (v : List Nat) : List Nat := v

/-- `u8aToHex` modelled as the list of hex nibbles (two per byte); faithful to
the property that each byte contributes exactly two hex characters. -/
def u8aToHex (v : List Nat) : List Nat :=
  v.foldr (fun b acc => b / 16 :: b % 16 :: acc) []

/-! ## Text codec (`src/unnamed/part_000`) -/

/-- `MAX_LENGTH` from `src/unnamed/part_000` line 12. -/
def MAX_LENGTH : Nat := 128 * 1024

/-- `decodeText` (`src/unnamed/part_000` lines 15-39), restricted to the
`Uint8Array` branch for a plain (non-`Raw`) buffer: zero length gives the
empty string with 0 consumed; otherwise read a compact length prefix, assert
`length ≤ MAX_LENGTH` and `offset + length ≤ value.length`, and return the
decoded slice together with the total bytes consumed. `none` models a thrown
assertion. -/
def decodeText (value : List Nat) : Option (List Nat × Nat) :=
  if value.length = 0 then some ([], 0)
  else
    let p := compactFromU8a value
    let offset := p.1
    let length := p.2
    let total := offset + length
    if length ≤ MAX_LENGTH then
      if total ≤ value.length then
        some (u8aToString ((value.drop offset).take length), total)
      else none
    else none

/-- The `Text` class state: the original string (as bytes), the display
override (`#override`, initially `null`), and `#initialU8aLength`. -/
structure Text where
  value : List Nat
  override : Option (List Nat) := none
  initialU8aLength : Nat := 0
deriving DecidableEq

/-- Constructing a `Text` from a plain string (the non-`U8a`, non-hex branch
of `decodeText`: `value.toString()` with 0 bytes consumed). -/
def Text.ofString (s : List Nat) : Text := ⟨s, none, 0⟩

/-- Constructing a `Text` from a `Uint8Array` via `decodeText`; `none` models
a thrown decode assertion. -/
def Text.ofU8a (v : List Nat) : Option Text :=
  (decodeText v).map fun r => ⟨r.1, none, r.2⟩

/-- `super.toString()`: the original string the `Text` was constructed with,
never the override. -/
def Text.superToString (t : Text) : List Nat := t.value

/-- `Text.toString` (`src/unnamed/part_000` lines 154-156):
`this.#override || super.toString()` — a `null` or empty override falls back
to the original value (JavaScript `||` treats the empty string as falsy). -/
def Text.toStr (t : Text) : List Nat :=
  match t.override with
  | some o => if o = [] then t.superToString else o
  | none => t.superToString

/-- `Text.setOverride` (`src/unnamed/part_000` lines 117-119). -/
def Text.setOverride (t : Text) (override : List Nat) : Text :=
  { t with override := some override }

/-- `Text.toU8a` (`src/unnamed/part_000` lines 162-170): encodes the original
value (`super.toString()`), adding the compact length prefix unless `isBare`. -/
def Text.toU8a (t : Text) (isBare : Bool := false) : List Nat :=
  let encoded := stringToU8a t.superToString
  if isBare then encoded else compactAddLength encoded

/-- `Text.encodedLength` (`src/unnamed/part_000` lines 72-74):
`this.toU8a().length` (no argument, so the prefix is included). -/
def Text.encodedLength (t : Text) : Nat := (t.toU8a).length

/-- `Text.toHex` (`src/unnamed/part_000` lines 124-128):
`u8aToHex(this.toU8a(true))` — the bare encoding, no length prefix. -/
def Text.toHex (t : Text) : List Nat := u8aToHex (t.toU8a true)

/-- `Text.eq` (`src/unnamed/part_000` lines 108-112) against another `Text`:
compares `toString` output (which honours overrides). -/
def Text.eq (t other : Text) : Bool := t.toStr = other.toStr

/-! ## Metadata envelope (`src/packages/types/src/metadata/Metadata.ts`) -/

/-- `VERSION_IDX` (`Metadata.ts` line 11): the version byte sits right after
the 4-byte magic. -/
def VERSION_IDX : Nat := 4

/-- `EMPTY_METADATA` (`Metadata.ts` line 14): magic `"meta"` plus the lowest
supported version byte 9. -/
def EMPTY_METADATA : List Nat := [0x6d, 0x65, 0x74, 0x61, 9]

/-- `toU8a` (`Metadata.ts` lines 17-27) on a byte buffer: an empty buffer is
replaced by the `EMPTY_METADATA` sentinel, anything else passes through.
(The hex branch converts to bytes and re-enters this same logic, so under the
byte-list model it is already covered.) -/
def metaToU8a (value : List Nat) : List Nat :=
  if value.length = 0 then EMPTY_METADATA else value

/-- `decodeMetadata` (`Metadata.ts` lines 29-51) on a byte buffer, abstracted
over the `MetadataVersioned` constructor `dec` (that class lives outside
`src/`); `Except` keeps the identity of the thrown error. On failure, when the
version byte read at `VERSION_IDX` before the attempt is 9, the byte is
rewritten to 10 and the whole function recurses once on the rewritten buffer
(writing past the end of a `Uint8Array` is a no-op, as is `List.set` out of
range). -/
def decodeMetadataU8a {ε M : Type} (dec : List Nat → Except ε M) (value : List Nat) :
    Except ε M :=
  let v := metaToU8a value
  match dec v with
  | Except.ok m => Except.ok m
  | Except.error e =>
    if h : v[VERSION_IDX]? = some 9 then
      decodeMetadataU8a dec (v.set VERSION_IDX 10)
    else
      Except.error e
termination_by (if (metaToU8a value)[VERSION_IDX]? = some 9 then 1 else 0)
decreasing_by
  have hlt : VERSION_IDX < (metaToU8a value).length := by
    by_contra hc
    push_neg at hc
    rw [List.getElem?_eq_none hc] at h
    cases h
  have hne : ¬ ((metaToU8a value).set VERSION_IDX 10).length = 0 := by
    simp only [List.length_set]
    omega
  have hmeta : metaToU8a ((metaToU8a value).set VERSION_IDX 10)
      = (metaToU8a value).set VERSION_IDX 10 := if_neg hne
  rw [hmeta, h, List.getElem?_set_eq_of_lt 10 hlt]
  simp

/-- `decodeMetadata`'s entry for the `Uint8Array`-or-absent cases (`_value`
may be `undefined`, in which case `toU8a` defaults to the empty buffer). -/
def decodeMetadata {ε M : Type} (dec : List Nat → Except ε M) (value : Option (List Nat)) :
    Except ε M :=
  decodeMetadataU8a dec (value.getD [])

/-! ## Extrinsic envelope (`src/unnamed/part_001`) -/

/-- Modelled from the spec: the constants module (`./constants`) is not under
`src/`; spec §3 fixes `version = formatVersion | (isSigned ? SIGNED_BIT : 0)`
with the top bit as the signed flag and low 7 bits as the format version. -/
def BIT_SIGNED : Nat := 0x80

/-- Modelled from the spec: the unsigned bit contributes nothing. -/
def BIT_UNSIGNED : Nat := 0x00

/-- Modelled from the spec: mask keeping the low 7 format-version bits. -/
def UNMASK_VERSION : Nat := 0x7f

/-- `VERSIONS` (`src/unnamed/part_001` lines 28-34): the type name registered
for each format version; v0 is unknown. -/
def VERSIONS : List String :=
  ["ExtrinsicUnknown", "ExtrinsicUnknown", "ExtrinsicUnknown", "ExtrinsicUnknown",
   "ExtrinsicV4"]

/-- The type-name selection inside `GenericExtrinsic._newFromValue`
(`src/unnamed/part_001` line 198): `VERSIONS[version & UNMASK_VERSION] ||
VERSIONS[0]` — an out-of-range index yields `undefined`, falling back to
`VERSIONS[0]`. -/
def newFromValueType (version : Nat) : String :=
  (VERSIONS.get? (Nat.land version UNMASK_VERSION)).getD (VERSIONS.headD "")

/-- The signed-flag extraction inside `_newFromValue` (line 197):
`(version & BIT_SIGNED) === BIT_SIGNED`. -/
def newFromValueIsSigned (version : Nat) : Bool :=
  Nat.land version BIT_SIGNED == BIT_SIGNED

/-- The state wrapped by `ExtrinsicBase` (`this._raw`): the inner versioned
extrinsic, exposing its raw format version (`_raw.version`), its signed flag
(`_raw.signature.isSigned`) and its own encoding (`_raw.toU8a()`), which are
all `GenericExtrinsic.toU8a` and the version getters consume. -/
structure ExtrinsicInner where
  version : Nat
  isSigned : Bool
  rawToU8a : List Nat
deriving DecidableEq

/-- `ExtrinsicBase.type` (`src/unnamed/part_001` lines 153-155): the raw
transaction version, unflagged. -/
def ExtrinsicBase.type (e : ExtrinsicInner) : Nat := e.version

/-- `ExtrinsicBase.version` (`src/unnamed/part_001` lines 160-162):
`this.type | (this.isSigned ? BIT_SIGNED : BIT_UNSIGNED)`. -/
def ExtrinsicBase.version (e : ExtrinsicInner) : Nat :=
  Nat.lor (ExtrinsicBase.type e) (if e.isSigned then BIT_SIGNED else BIT_UNSIGNED)

/-- `GenericExtrinsic.toU8a` (`src/unnamed/part_001` lines 320-328): the
version byte concatenated with the inner payload's encoding, length-prefixed
unless `isBare`. -/
def GenericExtrinsic.toU8a (e : ExtrinsicInner) (isBare : Bool := false) : List Nat :=
  let encoded := ExtrinsicBase.version e :: e.rawToU8a
  if isBare then encoded else compactAddLength encoded

/-! ## Record model for JavaScript objects

JavaScript plain objects used as string-keyed maps: assignment overwrites any
earlier binding for the same key, lookup returns the current binding. -/

/-- JavaScript object assignment `m[k] = v`: replace any earlier binding. -/
def recordSet {α : Type} (m : List (String × α)) (k : String) (v : α) :
    List (String × α) :=
  (k, v) :: m.filter fun p => p.1 ≠ k

/-- JavaScript object lookup `m[k]` (`none` models `undefined`). -/
def recordGet {α : Type} (m : List (String × α)) (k : String) : Option α :=
  (m.find? fun p => p.1 == k).map Prod.snd

/-- `Array.prototype.reduce` with the element index, as used by the decorator
sources (`fn(acc, element, index)`). -/
def foldIdx {α β : Type} (f : β → Nat → α → β) : β → Nat → List α → β
  | acc, _, [] => acc
  | acc, i, x :: xs => foldIdx f (f acc i x) (i + 1) xs

/-! ## Extrinsic decoration (`src/packages/api-derive/src/bundle.ts` lines
147-163, the `fromMetadata` decorator) -/

/-- A module of the (v7) metadata as `fromMetadata` consumes it: its name and
its optional call list (`calls.isSome` / `calls.unwrap()`); calls are reduced
to their names, which is all `fromMetadata`'s control flow reads. -/
structure ModuleMetadata where
  name : String
  calls : Option (List String)
deriving DecidableEq

/-- The result of `createUnchecked(section, sectionIndex, methodIndex,
callMetadata)` (an external collaborator): a callable bound to exactly these
four arguments. -/
structure UncheckedBinding where
  sectionName : String
  sectionIndex : Nat
  methodIndex : Nat
  callName : String
deriving DecidableEq

/-- The inner `reduce` of `fromMetadata`: one binding per call, keyed by the
lower-camel-cased call name, with `methodIndex` the call's position. -/
def decorateModuleCalls (camel : String → String) (sectionName : String)
    (sectionIndex : Nat) (calls : List String) :
    List (String × UncheckedBinding) :=
  foldIdx
    (fun newModule methodIndex c =>
      recordSet newModule (camel c) ⟨sectionName, sectionIndex, methodIndex, c⟩)
    [] 0 calls

/-- The `.filter((modul) => modul.calls.isSome)` stage of `fromMetadata`. -/
def modulesWithCalls (modules : List ModuleMetadata) : List ModuleMetadata :=
  modules.filter fun modul => modul.calls.isSome

/-- `fromMetadata` (`bundle.ts` lines 147-163): filter the metadata modules to
those with calls, then reduce with the *filtered* index as `sectionIndex`,
grouping the per-call bindings under the lower-camel-cased module name.
`camel` abstracts `stringCamelCase` and `extrinsics0` the spread base object
`{ ...extrinsics }` (both external collaborators). -/
def fromMetadata (camel : String → String)
    (extrinsics0 : List (String × List (String × UncheckedBinding)))
    (modules : List ModuleMetadata) :
    List (String × List (String × UncheckedBinding)) :=
  foldIdx
    (fun result sectionIndex modul =>
      recordSet result (camel modul.name)
        (decorateModuleCalls camel (camel modul.name) sectionIndex
          (modul.calls.getD [])))
    extrinsics0 0 (modulesWithCalls modules)

/-! ## Derive section gating (`src/packages/api-derive/src/bundle.ts` lines
31-118) -/

/-- The `Avail` shape of a `checks` entry (`bundle.ts` lines 31-34). -/
structure Avail where
  instances : List String
  withDetect : Bool := false
deriving DecidableEq

/-- The `checks` allow-list (`bundle.ts` lines 56-70), as the lookup
`checks[s]` (absence modelled as `none`). -/
def checks (s : String) : Option Avail :=
  if s = "contracts" then some ⟨["contracts"], false⟩
  else if s = "council" then some ⟨["council"], true⟩
  else if s = "crowdloan" then some ⟨["crowdloan"], false⟩
  else if s = "democracy" then some ⟨["democracy"], false⟩
  else if s = "elections" then
    some ⟨["phragmenElection", "electionsPhragmen", "elections", "council"], true⟩
  else if s = "imOnline" then some ⟨["imOnline"], false⟩
  else if s = "membership" then some ⟨["membership"], false⟩
  else if s = "parachains" then some ⟨["parachains", "registrar"], false⟩
  else if s = "session" then some ⟨["session"], false⟩
  else if s = "society" then some ⟨["society"], false⟩
  else if s = "staking" then some ⟨["staking"], false⟩
  else if s = "technicalCommittee" then some ⟨["technicalCommittee"], true⟩
  else if s = "treasury" then some ⟨["treasury"], false⟩
  else none

/-- `isIncluded` (`bundle.ts` lines 91-98): a section is included when it has
no `checks` entry, or one of its listed instances is a query key, or (with
`withDetect`) one of the runtime's module instances for a listed instance is a
query key. `queryKeys` models `Object.keys(api.query)` and `gmi` the
spec-name-applied `getModuleInstances` (already defaulted to `[]`). -/
def isIncluded (queryKeys : List String) (gmi : String → List String)
    (s : String) : Bool :=
  match checks s with
  | none => true
  | some av =>
    av.instances.any (fun q => queryKeys.contains q) ||
      (av.withDetect &&
        av.instances.any fun q => (gmi q).any fun k => queryKeys.contains k)

/-- `injectFunctions` (`bundle.ts` lines 81-118): starting from the empty
result object, each section of `derives` whose name passes `isIncluded` is
installed under its name. Modelled from the spec: `lazyDeriveSection` (in
`./util/lazy`, outside `src/`) is the helper that installs the decorated
section under `result[name]`; its eager model here is plain object
assignment of the section's contents. -/
def injectFunctions {β : Type} (queryKeys : List String)
    (gmi : String → List String) (derives : List (String × β)) :
    List (String × β) :=
  derives.foldl
    (fun result p =>
      if isIncluded queryKeys gmi p.1 then recordSet result p.1 p.2 else result)
    []

/-! ## Helper lemmas: compact codec -/

theorem length_natToBytesLE (k : Nat) : ∀ n, (natToBytesLE k n).length = k := by
  induction k with
  | zero => intro n; rfl
  | succ k ih => intro n; simp [natToBytesLE, ih]

theorem compactToU8a_ne_nil (n : Nat) : compactToU8a n ≠ [] := by
  unfold compactToU8a
  split
  · simp
  · split
    · simp [natToBytesLE]
    · split
      · simp [natToBytesLE]
      · simp

theorem compactFromU8a_compactToU8a (n : Nat) (hn : n < 2 ^ 30) (rest : List Nat) :
    compactFromU8a (compactToU8a n ++ rest) = ((compactToU8a n).length, n) := by
  by_cases h1 : n < 2 ^ 6
  · simp only [compactToU8a, if_pos h1]
    simp only [List.cons_append, List.nil_append, compactFromU8a, List.headD]
    have hf : n * 4 % 4 = 0 := by omega
    rw [hf]
    simp
  · by_cases h2 : n < 2 ^ 14
    · simp only [compactToU8a, if_neg h1, if_pos h2]
      have henc : natToBytesLE 2 (n * 4 + 1) = [(n * 4 + 1) % 256, (n * 4 + 1) / 256 % 256] := by
        simp [natToBytesLE]
      rw [henc]
      have hflag : (n * 4 + 1) % 256 % 4 = 1 := by
        rw [Nat.mod_mod_of_dvd _ (by norm_num)]
        omega
      simp only [List.cons_append, List.nil_append, compactFromU8a, List.headD,
        List.take_succ_cons, List.take_zero, u8aToNat]
      rw [hflag]
      norm_num
      have hdiv : (n * 4 + 1) / 256 < 256 := by omega
      have heq : (n * 4 + 1) % 256 + 256 * ((n * 4 + 1) / 256 % 256) = n * 4 + 1 := by
        rw [Nat.mod_eq_of_lt hdiv]
        omega
      omega
    · by_cases h3 : n < 2 ^ 30
      · simp only [compactToU8a, if_neg h1, if_neg h2, if_pos h3]
        have henc : natToBytesLE 4 (n * 4 + 2) =
            [(n * 4 + 2) % 256, (n * 4 + 2) / 256 % 256,
             (n * 4 + 2) / 256 / 256 % 256, (n * 4 + 2) / 256 / 256 / 256 % 256] := by
          simp [natToBytesLE]
        rw [henc]
        have hflag : (n * 4 + 2) % 256 % 4 = 2 := by
          rw [Nat.mod_mod_of_dvd _ (by norm_num)]
          omega
        simp only [List.cons_append, List.nil_append, compactFromU8a, List.headD,
          List.take_succ_cons, List.take_zero, u8aToNat]
        rw [hflag]
        norm_num
        have h8 : (n * 4 + 2) / 256 / 256 / 256 < 256 := by omega
        have heq : (n * 4 + 2) % 256 + 256 * ((n * 4 + 2) / 256 % 256 +
            256 * ((n * 4 + 2) / 256 / 256 % 256 +
              256 * ((n * 4 + 2) / 256 / 256 / 256 % 256))) = n * 4 + 2 := by
          rw [Nat.mod_eq_of_lt h8]
          omega
        omega
      · omega

theorem decodeText_compactAddLength (body : List Nat) (hb : body.length ≤ MAX_LENGTH) :
    decodeText (compactAddLength body) =
      some (body, (compactToU8a body.length).length + body.length) := by
  have hlt : body.length < 2 ^ 30 := by
    have hmax : MAX_LENGTH < 2 ^ 30 := by norm_num [MAX_LENGTH]
    omega
  have hcfa := compactFromU8a_compactToU8a body.length hlt body
  have hne : (compactAddLength body).length ≠ 0 := by
    simp [compactAddLength]
    intro hc
    exact absurd hc (compactToU8a_ne_nil body.length)
  unfold decodeText
  rw [if_neg hne]
  unfold compactAddLength at hcfa ⊢
  rw [hcfa]
  simp only []
  rw [if_pos hb, if_pos]
  · rw [List.drop_left, List.take_length]
    rfl
  · simp

/-! ## Claim theorems: Text codec -/

/-- C1: round-trip fidelity for the Text codec. Decoding the encoding of any
value yields a value equal to it under the `eq` contract, and constructing a
`Text` from a compact-length-prefixed buffer and calling `toU8a(false)`
reproduces the original prefix+body bytes exactly; the explicit `bare` flag
strips exactly the length prefix, leaving the body the caller re-prefixes. -/
theorem text_roundtrip :
    (∀ s : List Nat, s.length ≤ MAX_LENGTH →
      ∃ t : Text, Text.ofU8a (Text.toU8a (Text.ofString s) false) = some t ∧
        Text.eq t (Text.ofString s) = true) ∧
    (∀ body : List Nat, body.length ≤ MAX_LENGTH →
      ∃ t : Text, Text.ofU8a (compactAddLength body) = some t ∧
        Text.toU8a t false = compactAddLength body ∧
        Text.toU8a t true = body) := by
  have key : ∀ body : List Nat, body.length ≤ MAX_LENGTH →
      Text.ofU8a (compactAddLength body) =
        some ⟨body, none, (compactToU8a body.length).length + body.length⟩ := by
    intro body hb
    unfold Text.ofU8a
    rw [decodeText_compactAddLength body hb]
    rfl
  constructor
  · intro s hs
    refine ⟨⟨s, none, (compactToU8a s.length).length + s.length⟩, ?_, ?_⟩
    · have : Text.toU8a (Text.ofString s) false = compactAddLength s := rfl
      rw [this, key s hs]
    · simp [Text.eq, Text.toStr, Text.superToString, Text.ofString]
  · intro body hb
    exact ⟨⟨body, none, (compactToU8a body.length).length + body.length⟩,
      key body hb, rfl, rfl⟩

/-- C1 witness: the round-trip at the concrete string `[104, 105]`. -/
theorem text_roundtrip_witness :
    (∃ t : Text, Text.ofU8a (Text.toU8a (Text.ofString [104, 105]) false) = some t ∧
      Text.eq t (Text.ofString [104, 105]) = true) ∧
    (∃ t : Text, Text.ofU8a (compactAddLength [104, 105]) = some t ∧
      Text.toU8a t false = compactAddLength [104, 105] ∧
      Text.toU8a t true = [104, 105]) :=
  ⟨text_roundtrip.1 [104, 105] (by decide), text_roundtrip.2 [104, 105] (by decide)⟩

/-- C6: Text decode bounds. The empty buffer decodes to the empty string with
0 bytes consumed; a non-empty buffer reads a compact length prefix and fails
exactly when the declared length exceeds `MAX_LENGTH` (128 KiB) or
`offset + length` exceeds the buffer length, and otherwise returns the
decoded slice together with `offset + length` bytes consumed. -/
theorem decodeText_bounds :
    decodeText [] = some ([], 0) ∧
    ∀ v : List Nat, v ≠ [] →
      (decodeText v = none ↔
        (MAX_LENGTH < (compactFromU8a v).2 ∨
          v.length < (compactFromU8a v).1 + (compactFromU8a v).2)) ∧
      ((compactFromU8a v).2 ≤ MAX_LENGTH →
        (compactFromU8a v).1 + (compactFromU8a v).2 ≤ v.length →
        decodeText v =
          some (u8aToString ((v.drop (compactFromU8a v).1).take (compactFromU8a v).2),
            (compactFromU8a v).1 + (compactFromU8a v).2)) := by
  constructor
  · rfl
  · intro v hv
    have hne : ¬ v.length = 0 := by
      simpa [List.length_eq_zero] using hv
    constructor
    · unfold decodeText
      rw [if_neg hne]
      simp only []
      constructor
      · intro hnone
        by_cases hl : (compactFromU8a v).2 ≤ MAX_LENGTH
        · rw [if_pos hl] at hnone
          by_cases ht : (compactFromU8a v).1 + (compactFromU8a v).2 ≤ v.length
          · rw [if_pos ht] at hnone
            cases hnone
          · omega
        · omega
      · intro hor
        rcases hor with hor | hor
        · rw [if_neg (by omega)]
        · by_cases hl : (compactFromU8a v).2 ≤ MAX_LENGTH
          · rw [if_pos hl, if_neg (by omega)]
          · rw [if_neg hl]
    · intro hl ht
      unfold decodeText
      rw [if_neg hne]
      simp only []
      rw [if_pos hl, if_pos ht]

/-- C6 witness: decode of `[4, 120]` (compact length 1, body `[120]`). -/
theorem decodeText_bounds_witness :
    decodeText [4, 120] = some ([120], 2) :=
  ((decodeText_bounds.2 [4, 120] (by decide)).2 (by decide) (by decide))

/-- C8: `setOverride` is display-only. For every `Text` and every override
string, the wire encoding (`toU8a`, bare or not) and `encodedLength` are those
of the original value the `Text` was constructed with; only the
`toString`/display output is replaced (a JavaScript-falsy empty override falls
back to the original). -/
theorem setOverride_display_only (t : Text) (s : List Nat) :
    (∀ isBare : Bool, (t.setOverride s).toU8a isBare = t.toU8a isBare) ∧
    (t.setOverride s).encodedLength = t.encodedLength ∧
    (t.setOverride s).toStr = (if s = [] then t.superToString else s) :=
  ⟨fun _ => rfl, rfl, rfl⟩

/-- C10: `toHex` projects the bare encoding (no compact length prefix), so for
every non-empty text it differs from the hex of the length-prefixed
`toU8a(false)` encoding. -/
theorem toHex_is_bare (t : Text) (hne : t.value ≠ []) :
    t.toHex = u8aToHex (t.toU8a true) ∧
    t.toHex ≠ u8aToHex (t.toU8a false) := by
  have hlen : ∀ v : List Nat, (u8aToHex v).length = 2 * v.length := by
    intro v
    induction v with
    | nil => rfl
    | cons b rest ih =>
      simp only [u8aToHex, List.foldr] at ih ⊢
      simp [ih]
      omega
  refine ⟨rfl, fun hcontra => ?_⟩
  have hlens := congrArg List.length hcontra
  rw [Text.toHex, hlen, hlen] at hlens
  have h1 : (t.toU8a true).length = t.value.length := rfl
  have h2 : (t.toU8a false).length =
      (compactToU8a t.value.length).length + t.value.length := by
    simp [Text.toU8a, compactAddLength, stringToU8a, Text.superToString]
  have hpos : 0 < (compactToU8a t.value.length).length :=
    List.length_pos.mpr (compactToU8a_ne_nil t.value.length)
  omega

/-- C10 witness: the text `[104]`. -/
theorem toHex_is_bare_witness :
    Text.toHex ⟨[104], none, 0⟩ = u8aToHex (Text.toU8a ⟨[104], none, 0⟩ true) ∧
    Text.toHex ⟨[104], none, 0⟩ ≠ u8aToHex (Text.toU8a ⟨[104], none, 0⟩ false) :=
  toHex_is_bare ⟨[104], none, 0⟩ (by decide)

/-! ## Claim theorems: extrinsic envelope -/

/-- C3: the extrinsic envelope encodes as
`compactLength ++ versionByte ++ innerPayload` with
`versionByte = formatVersion | (0x80 if signed else 0)`; an unsigned format-4
extrinsic has version byte `0x04`, a signed one `0x84`; `isBare = true` omits
only the outer compact length prefix. -/
theorem extrinsic_envelope_encoding (e : ExtrinsicInner) :
    GenericExtrinsic.toU8a e false =
      compactAddLength (ExtrinsicBase.version e :: e.rawToU8a) ∧
    GenericExtrinsic.toU8a e true = ExtrinsicBase.version e :: e.rawToU8a ∧
    ExtrinsicBase.version e =
      Nat.lor e.version (if e.isSigned then 0x80 else 0) ∧
    (e.version = 4 → e.isSigned = false → ExtrinsicBase.version e = 0x04) ∧
    (e.version = 4 → e.isSigned = true → ExtrinsicBase.version e = 0x84) := by
  refine ⟨rfl, rfl, rfl, ?_, ?_⟩
  · intro hv hs
    simp [ExtrinsicBase.version, ExtrinsicBase.type, hv, hs, BIT_UNSIGNED]
    decide
  · intro hv hs
    simp [ExtrinsicBase.version, ExtrinsicBase.type, hv, hs, BIT_SIGNED]
    decide

/-- C3 witness: a signed format-4 extrinsic with inner payload `[7]`. -/
theorem extrinsic_envelope_encoding_witness :
    GenericExtrinsic.toU8a ⟨4, true, [7]⟩ false =
      compactAddLength (ExtrinsicBase.version ⟨4, true, [7]⟩ :: [7]) ∧
    ExtrinsicBase.version ⟨4, true, [7]⟩ = 0x84 :=
  ⟨(extrinsic_envelope_encoding ⟨4, true, [7]⟩).1,
    (extrinsic_envelope_encoding ⟨4, true, [7]⟩).2.2.2.2 rfl rfl⟩

/-- C7: any version byte whose low-7-bit format version has no registered
extrinsic shape (formats 0 through 3, or above the latest known version 4)
selects the explicit `ExtrinsicUnknown` type name instead of failing. -/
theorem unknown_version_decodes_unknown (version : Nat)
    (h : Nat.land version UNMASK_VERSION ≤ 3 ∨ 4 < Nat.land version UNMASK_VERSION) :
    newFromValueType version = "ExtrinsicUnknown" := by
  unfold newFromValueType
  rcases h with h | h
  · interval_cases hk : Nat.land version UNMASK_VERSION <;> rfl
  · rw [List.get?_eq_none.mpr (by simp [VERSIONS]; omega)]
    rfl

/-- C7 witness: version byte `0x85` (signed, format 5) selects
`ExtrinsicUnknown`. -/
theorem unknown_version_decodes_unknown_witness :
    newFromValueType 0x85 = "ExtrinsicUnknown" :=
  unknown_version_decodes_unknown 0x85 (by decide)

/-! ## Helper lemmas: metadata envelope -/

theorem decodeMetadataU8a_ok {ε M : Type} (dec : List Nat → Except ε M)
    (value : List Nat) (m : M) (hm : dec (metaToU8a value) = Except.ok m) :
    decodeMetadataU8a dec value = Except.ok m := by
  rw [decodeMetadataU8a]
  simp [hm]

theorem decodeMetadataU8a_fallback {ε M : Type} (dec : List Nat → Except ε M)
    (value : List Nat) (e : ε) (he : dec (metaToU8a value) = Except.error e)
    (h9 : (metaToU8a value)[VERSION_IDX]? = some 9) :
    decodeMetadataU8a dec value = dec ((metaToU8a value).set VERSION_IDX 10) := by
  have hlt : VERSION_IDX < (metaToU8a value).length := by
    by_contra hc
    push_neg at hc
    rw [List.getElem?_eq_none hc] at h9
    cases h9
  have hlen : ¬ ((metaToU8a value).set VERSION_IDX 10).length = 0 := by
    simp only [List.length_set]
    omega
  have hmeta : metaToU8a ((metaToU8a value).set VERSION_IDX 10)
      = (metaToU8a value).set VERSION_IDX 10 := if_neg hlen
  rw [decodeMetadataU8a]
  simp only [he, h9]
  rw [dif_pos trivial]
  rw [decodeMetadataU8a]
  simp only [hmeta]
  rw [List.getElem?_set_eq_of_lt 10 hlt]
  cases hd : dec ((metaToU8a value).set VERSION_IDX 10) <;> simp

theorem decodeMetadataU8a_propagate {ε M : Type} (dec : List Nat → Except ε M)
    (value : List Nat) (e : ε) (he : dec (metaToU8a value) = Except.error e)
    (h9 : ¬ (metaToU8a value)[VERSION_IDX]? = some 9) :
    decodeMetadataU8a dec value = Except.error e := by
  rw [decodeMetadataU8a]
  simp [he, h9]

/-! ## Claim theorems: metadata envelope -/

/-- C2: the metadata version fallback. When the inner decoder succeeds the
result is returned directly; when it fails and the version byte at offset 4
is 9, the byte is rewritten to 10 and decoding is retried exactly once — the
result is precisely the retry's own outcome, so a second failure propagates
unmodified; when it fails and the version byte is anything other than 9, the
original failure propagates unmodified with no fallback attempt. -/
theorem metadata_version_fallback {ε M : Type} (dec : List Nat → Except ε M)
    (value : List Nat) :
    (∀ m, dec (metaToU8a value) = Except.ok m →
      decodeMetadataU8a dec value = Except.ok m) ∧
    (∀ e, dec (metaToU8a value) = Except.error e →
      (metaToU8a value)[VERSION_IDX]? = some 9 →
      decodeMetadataU8a dec value = dec ((metaToU8a value).set VERSION_IDX 10)) ∧
    (∀ e, dec (metaToU8a value) = Except.error e →
      (metaToU8a value)[VERSION_IDX]? ≠ some 9 →
      decodeMetadataU8a dec value = Except.error e) :=
  ⟨fun m hm => decodeMetadataU8a_ok dec value m hm,
   fun e he h9 => decodeMetadataU8a_fallback dec value e he h9,
   fun e he h9 => decodeMetadataU8a_propagate dec value e he h9⟩

/-- C2 witness: a payload with version byte 9 that only decodes once the byte
is rewritten to 10 succeeds through the single fallback retry. -/
theorem metadata_version_fallback_witness :
    decodeMetadataU8a
      (fun v => if v[VERSION_IDX]? = some 10 then Except.ok 7 else Except.error ())
      [1, 2, 3, 4, 9, 0] = Except.ok 7 := by
  have h := (metadata_version_fallback
    (fun v => if v[VERSION_IDX]? = some 10 then Except.ok 7 else Except.error ())
    [1, 2, 3, 4, 9, 0]).2.1 () rfl rfl
  rw [h]
  rfl

/-- C9: the empty metadata sentinel. Construction from an empty buffer (or no
value at all) replaces the input with the fixed constant bytes
`6d 65 74 61 09` (magic plus version 9), so any inner decoder accepting that
sentinel makes construction succeed rather than raise a decode error. -/
theorem empty_metadata_sentinel :
    metaToU8a [] = EMPTY_METADATA ∧
    EMPTY_METADATA = [0x6d, 0x65, 0x74, 0x61, 9] ∧
    (∀ {ε M : Type} (dec : List Nat → Except ε M) (m : M),
      dec EMPTY_METADATA = Except.ok m →
      decodeMetadata dec none = Except.ok m ∧
      decodeMetadata dec (some []) = Except.ok m) := by
  refine ⟨rfl, rfl, fun dec m hm => ⟨?_, ?_⟩⟩
  · exact decodeMetadataU8a_ok dec [] m hm
  · exact decodeMetadataU8a_ok dec [] m hm

/-- C9 witness: a decoder accepting exactly the sentinel makes construction
from empty or absent input succeed. -/
theorem empty_metadata_sentinel_witness :
    decodeMetadata
      (fun v => if v = EMPTY_METADATA then Except.ok 3 else Except.error ())
      none = Except.ok 3 ∧
    decodeMetadata
      (fun v => if v = EMPTY_METADATA then Except.ok 3 else Except.error ())
      (some []) = Except.ok 3 :=
  empty_metadata_sentinel.2.2
    (fun v => if v = EMPTY_METADATA then Except.ok 3 else Except.error ()) 3 rfl


/-! ## Helper lemmas: JavaScript record model -/

theorem recordGet_recordSet_self {α : Type} (m : List (String × α)) (k : String) (v : α) :
    recordGet (recordSet m k v) k = some v := by
  simp [recordGet, recordSet]

theorem recordGet_recordSet_ne {α : Type} (m : List (String × α)) (k k' : String) (v : α)
    (h : k' ≠ k) : recordGet (recordSet m k v) k' = recordGet m k' := by
  unfold recordGet recordSet
  rw [List.find?_cons_of_neg _ (by simp [h.symm])]
  congr 1
  induction m with
  | nil => rfl
  | cons p rest ih =>
    by_cases hpk : p.1 = k
    · rw [List.filter_cons_of_neg (by simp [hpk]),
        List.find?_cons_of_neg _ (by simp [hpk, h.symm]), ih]
    · by_cases hpk' : p.1 = k'
      · rw [List.filter_cons_of_pos (by simp [hpk]),
          List.find?_cons_of_pos _ (by simp [hpk']),
          List.find?_cons_of_pos _ (by simp [hpk'])]
      · rw [List.filter_cons_of_pos (by simp [hpk]),
          List.find?_cons_of_neg _ (by simp [hpk']),
          List.find?_cons_of_neg _ (by simp [hpk']), ih]

theorem recordGet_foldIdx_absent {α β : Type} (key : α → String) (val : Nat → α → β)
    (k : String) (l : List α) :
    ∀ (i0 : Nat) (acc : List (String × β)), (∀ x ∈ l, key x ≠ k) →
      recordGet (foldIdx (fun acc i x => recordSet acc (key x) (val i x)) acc i0 l) k
        = recordGet acc k := by
  induction l with
  | nil => intro i0 acc _; rfl
  | cons x xs ih =>
    intro i0 acc h
    rw [foldIdx, ih]
    · exact recordGet_recordSet_ne _ _ _ _ (fun hk => h x (by simp) hk.symm)
    · intro y hy
      exact h y (by simp [hy])

theorem recordGet_foldIdx_at {α β : Type} (key : α → String) (val : Nat → α → β)
    (l : List α) :
    ∀ (i0 : Nat) (acc : List (String × β)) (j : Nat) (hj : j < l.length),
      (∀ x ∈ l.drop (j + 1), key x ≠ key (l.get ⟨j, hj⟩)) →
      recordGet (foldIdx (fun acc i x => recordSet acc (key x) (val i x)) acc i0 l)
          (key (l.get ⟨j, hj⟩))
        = some (val (i0 + j) (l.get ⟨j, hj⟩)) := by
  induction l with
  | nil => intro i0 acc j hj _; cases hj
  | cons x xs ih =>
    intro i0 acc j hj h
    match j with
    | 0 =>
      rw [foldIdx]
      have hget : (x :: xs).get ⟨0, hj⟩ = x := rfl
      rw [hget] at h ⊢
      rw [recordGet_foldIdx_absent key val (key x) xs (i0 + 1) _ (by simpa using h)]
      simp [recordGet_recordSet_self]
    | j + 1 =>
      rw [foldIdx]
      have hj' : j < xs.length := by simpa using hj
      have hget : (x :: xs).get ⟨j + 1, hj⟩ = xs.get ⟨j, hj'⟩ := rfl
      rw [hget] at h ⊢
      rw [ih (i0 + 1) _ j hj' (by simpa using h)]
      congr 2
      omega

/-! ## Claim theorems: extrinsic decoration -/

/-- C4 counterexample: with a metadata module list `[a (no calls), b (one
call "c")]`, the callable produced for `b.c` is bound to `sectionIndex = 0`
(the position of `b` among the modules that have calls) even though `b` sits
at position 1 of the metadata module list — refuting the claim that the bound
`moduleIndex` is the module's position in the metadata module list. -/
theorem fromMetadata_full_index_refuted :
    (((recordGet
        (fromMetadata (fun s => s) []
          [ModuleMetadata.mk "a" none, ModuleMetadata.mk "b" (some ["c"])]) "b").bind
      fun sec => recordGet sec "c").map UncheckedBinding.sectionIndex) = some 0 ∧
    [ModuleMetadata.mk "a" none, ModuleMetadata.mk "b" (some ["c"])].get ⟨1, by decide⟩
      = ModuleMetadata.mk "b" (some ["c"]) ∧
    (((recordGet
        (fromMetadata (fun s => s) []
          [ModuleMetadata.mk "a" none, ModuleMetadata.mk "b" (some ["c"])]) "b").bind
      fun sec => recordGet sec "c").map UncheckedBinding.sectionIndex) ≠ some 1 := by
  refine ⟨by decide, rfl, by decide⟩

/-- C4 (amended): for every module of the metadata that has at least one
call, the extrinsic decorator produces, under the module's lower-camel-cased
name, one callable per call ordered by declaration index, each bound to the
pair `(moduleIndex, methodIndex)` — where `moduleIndex` is the module's
position within the *filtered* sequence of modules that have calls (not the
full metadata module list) and `methodIndex` is the call's declaration
position within the module. The hypotheses say no later filtered module (resp.
later call) collides on the lower-camel-cased name, so the binding written for
this module (resp. call) is the one that survives. -/
theorem fromMetadata_call_binding (camel : String → String)
    (extrinsics0 : List (String × List (String × UncheckedBinding)))
    (modules : List ModuleMetadata) (i j : Nat)
    (hi : i < (modulesWithCalls modules).length)
    (hsec : ∀ m ∈ (modulesWithCalls modules).drop (i + 1),
      camel m.name ≠ camel ((modulesWithCalls modules).get ⟨i, hi⟩).name)
    (hj : j < (((modulesWithCalls modules).get ⟨i, hi⟩).calls.getD []).length)
    (hcall : ∀ c ∈ (((modulesWithCalls modules).get ⟨i, hi⟩).calls.getD []).drop (j + 1),
      camel c ≠ camel ((((modulesWithCalls modules).get ⟨i, hi⟩).calls.getD []).get ⟨j, hj⟩)) :
    recordGet (fromMetadata camel extrinsics0 modules)
        (camel ((modulesWithCalls modules).get ⟨i, hi⟩).name)
      = some (decorateModuleCalls camel
          (camel ((modulesWithCalls modules).get ⟨i, hi⟩).name) i
          (((modulesWithCalls modules).get ⟨i, hi⟩).calls.getD [])) ∧
    recordGet (decorateModuleCalls camel
        (camel ((modulesWithCalls modules).get ⟨i, hi⟩).name) i
        (((modulesWithCalls modules).get ⟨i, hi⟩).calls.getD []))
        (camel ((((modulesWithCalls modules).get ⟨i, hi⟩).calls.getD []).get ⟨j, hj⟩))
      = some ⟨camel ((modulesWithCalls modules).get ⟨i, hi⟩).name, i, j,
          (((modulesWithCalls modules).get ⟨i, hi⟩).calls.getD []).get ⟨j, hj⟩⟩ := by
  constructor
  · have h := recordGet_foldIdx_at (fun m => camel m.name)
      (fun idx m => decorateModuleCalls camel (camel m.name) idx (m.calls.getD []))
      (modulesWithCalls modules) 0 extrinsics0 i hi hsec
    simpa [fromMetadata] using h
  · have h := recordGet_foldIdx_at (fun c => camel c)
      (fun idx c => UncheckedBinding.mk
        (camel ((modulesWithCalls modules).get ⟨i, hi⟩).name) i idx c)
      (((modulesWithCalls modules).get ⟨i, hi⟩).calls.getD []) 0 [] j hj hcall
    simpa [decorateModuleCalls] using h

/-- C4 witness: the amended binding theorem at the concrete module list
`[a (no calls), b (one call "c")]`, module position 0 of the filtered list. -/
theorem fromMetadata_call_binding_witness :
    recordGet
        (fromMetadata (fun s => s) []
          [ModuleMetadata.mk "a" none, ModuleMetadata.mk "b" (some ["c"])])
        "b"
      = some (decorateModuleCalls (fun s => s) "b" 0 ["c"]) ∧
    recordGet (decorateModuleCalls (fun s => s) "b" 0 ["c"]) "c"
      = some (UncheckedBinding.mk "b" 0 0 "c") :=
  fromMetadata_call_binding (fun s => s) []
    [ModuleMetadata.mk "a" none, ModuleMetadata.mk "b" (some ["c"])] 0 0
    (by decide) (by decide) (by decide) (by decide)

/-! ## Helper lemmas: derive gating -/

theorem injectFunctions_foldl_none {β : Type} (queryKeys : List String)
    (gmi : String → List String) (s : String)
    (hinc : isIncluded queryKeys gmi s = false) :
    ∀ (derives : List (String × β)) (acc : List (String × β)),
      recordGet acc s = none →
      recordGet
        (derives.foldl
          (fun result p =>
            if isIncluded queryKeys gmi p.1 then recordSet result p.1 p.2 else result)
          acc) s = none := by
  intro derives
  induction derives with
  | nil => intro acc hacc; exact hacc
  | cons p rest ih =>
    intro acc hacc
    rw [List.foldl_cons]
    apply ih
    by_cases hps : p.1 = s
    · rw [hps, hinc]
      exact hacc
    · by_cases hpi : isIncluded queryKeys gmi p.1
      · rw [if_pos hpi, recordGet_recordSet_ne _ _ _ _ (Ne.symm hps)]
        exact hacc
      · rw [if_neg hpi]
        exact hacc

theorem injectFunctions_foldl_some {β : Type} (queryKeys : List String)
    (gmi : String → List String) (s : String)
    (hinc : isIncluded queryKeys gmi s = true) :
    ∀ (derives : List (String × β)) (acc : List (String × β)),
      ((∃ w, recordGet acc s = some w) ∨ ∃ v, (s, v) ∈ derives) →
      ∃ w, recordGet
        (derives.foldl
          (fun result p =>
            if isIncluded queryKeys gmi p.1 then recordSet result p.1 p.2 else result)
          acc) s = some w := by
  intro derives
  induction derives with
  | nil =>
    intro acc hacc
    rcases hacc with h | ⟨v, hv⟩
    · exact h
    · cases hv
  | cons p rest ih =>
    intro acc hacc
    rw [List.foldl_cons]
    by_cases hps : p.1 = s
    · apply ih
      left
      rw [hps, if_pos hinc]
      exact ⟨p.2, recordGet_recordSet_self _ _ _⟩
    · have hpres : recordGet
          (if isIncluded queryKeys gmi p.1 then recordSet acc p.1 p.2 else acc) s
          = recordGet acc s := by
        by_cases hpi : isIncluded queryKeys gmi p.1
        · rw [if_pos hpi, recordGet_recordSet_ne _ _ _ _ (Ne.symm hps)]
        · rw [if_neg hpi]
      apply ih
      rcases hacc with h | ⟨v, hv⟩
      · left
        rw [hpres]
        exact h
      · rcases List.mem_cons.mp hv with hv | hv
        · exact absurd (congrArg Prod.fst hv).symm hps
        · exact Or.inr ⟨v, hv⟩

theorem isIncluded_false_of_no_match (queryKeys : List String)
    (gmi : String → List String) (s : String) (av : Avail)
    (hcheck : checks s = some av)
    (hq : ∀ q ∈ av.instances, q ∉ queryKeys)
    (hd : av.withDetect = true → ∀ q ∈ av.instances, ∀ k ∈ gmi q, k ∉ queryKeys) :
    isIncluded queryKeys gmi s = false := by
  unfold isIncluded
  rw [hcheck]
  show ((av.instances.any fun q => queryKeys.contains q) ||
      (av.withDetect && av.instances.any fun q => (gmi q).any fun k => queryKeys.contains k))
    = false
  have e1 : (av.instances.any fun q => queryKeys.contains q) = false := by
    rw [List.any_eq_false]
    intro q hmem
    simpa using hq q hmem
  rw [e1, Bool.false_or]
  cases hwd : av.withDetect
  · rfl
  · rw [Bool.true_and, List.any_eq_false]
    intro q hmem
    rw [Bool.not_eq_true, List.any_eq_false]
    intro k hk
    simpa using hd hwd q hmem k hk

/-! ## Claim theorems: derive gating -/

/-- C5: section gating of the decorated derive map. A section with a `checks`
entry none of whose listed instance names is among the runtime's query keys
(nor, when `withDetect` is set, among the query keys via the runtime's
module-instance list) is excluded from the resulting map; a section with no
`checks` entry at all is always included (in particular whenever any query
key exists) provided the section is among the derives. -/
theorem derive_section_gating {β : Type} (queryKeys : List String)
    (gmi : String → List String) (derives : List (String × β)) (s : String) :
    (∀ av : Avail, checks s = some av →
      (∀ q ∈ av.instances, q ∉ queryKeys) →
      (av.withDetect = true → ∀ q ∈ av.instances, ∀ k ∈ gmi q, k ∉ queryKeys) →
      recordGet (injectFunctions queryKeys gmi derives) s = none) ∧
    (checks s = none → (∃ v, (s, v) ∈ derives) → queryKeys ≠ [] →
      ∃ w, recordGet (injectFunctions queryKeys gmi derives) s = some w) := by
  constructor
  · intro av hcheck hq hd
    exact injectFunctions_foldl_none queryKeys gmi s
      (isIncluded_false_of_no_match queryKeys gmi s av hcheck hq hd) derives [] rfl
  · intro hcheck hmem _
    have hinc : isIncluded queryKeys gmi s = true := by
      unfold isIncluded
      rw [hcheck]
    exact injectFunctions_foldl_some queryKeys gmi s hinc derives [] (Or.inr hmem)

/-- C5 witness: with query keys `["session"]`, the `staking` section (listed
in `checks` with instance `staking`, not a query key) is excluded, while a
custom section `myDerive` with no `checks` entry is included. -/
theorem derive_section_gating_witness :
    recordGet
        (injectFunctions (β := Nat) ["session"] (fun _ => [])
          [("staking", 1), ("myDerive", 2)]) "staking" = none ∧
    ∃ w, recordGet
        (injectFunctions (β := Nat) ["session"] (fun _ => [])
          [("staking", 1), ("myDerive", 2)]) "myDerive" = some w :=
  ⟨(derive_section_gating ["session"] (fun _ => [])
      [("staking", 1), ("myDerive", 2)] "staking").1
      ⟨["staking"], false⟩ (by decide) (by decide) (by decide),
   (derive_section_gating ["session"] (fun _ => [])
      [("staking", 1), ("myDerive", 2)] "myDerive").2
      (by decide) ⟨2, by decide⟩ (by decide)⟩
